import Mathlib

/-!
Verification of the natural-language specification of magiskinit.c
(src/native/jni/core/magiskinit.c) against a shallow embedding of its
functions in Lean.  C strings and byte buffers are modelled as List Char,
machine integers as Int/Nat, and the filesystem state needed by each claim
as explicit records.  Every definition is translated from the C source;
where a constant lives in a header that is not part of src/ (for example
SPLIT_PLAT_CIL from magisk.h), its definition carries a doc comment
starting with "Modelled from the spec:".
-/

set_option autoImplicit false

namespace Magiskinit

/-! ### Basic C-string helpers -/

/-- Character list of a Lean string literal; we model C byte buffers and
strings as List Char. -/
def s2l (s : String) : List Char := s.data

/-- The NUL byte. -/
def nul : Char := Char.ofNat 0

/-- The C isspace set, as used by the sscanf %s conversion. -/
def isWs (c : Char) : Bool :=
  c = ' ' || c = '\t' || c = '\n' || c = '\x0d' || c = Char.ofNat 11 || c = Char.ofNat 12

/-- Value of a C string stored in a buffer: the characters before the first
NUL byte. -/
def cstr (s : List Char) : List Char := s.takeWhile (fun c => c ≠ nul)

/-- hasPfx p s models strncmp(s, p, strlen(p)) == 0 for a NUL-free literal
p: the first strlen(p) characters of s are exactly p. -/
def hasPfx (p s : List Char) : Bool := decide (s.take p.length = p)

/-- afterLit lit s models the literal part of an sscanf format: if s starts
with lit, the remaining input, otherwise a matching failure. -/
def afterLit (lit s : List Char) : Option (List Char) :=
  if hasPfx lit s then some (s.drop lit.length) else none

/-- scanStr models the sscanf %s conversion on the remaining input: skip
whitespace, then read a maximal nonempty run of non-whitespace characters;
fails when that run is empty. -/
def scanStr (s : List Char) : Option (List Char) :=
  let w := (s.dropWhile isWs).takeWhile (fun c => !isWs c)
  if w.isEmpty then none else some w

/-- Numeric value of a digit run, most significant first. -/
def digitsVal (ds : List Char) : Nat := ds.foldl (fun a c => a * 10 + (c.toNat - 48)) 0

/-- scanLong models the sscanf %ld conversion: skip whitespace, optional
sign, then a nonempty digit run. -/
def scanLong (s : List Char) : Option Int :=
  let s := s.dropWhile isWs
  match s with
  | '-' :: rest =>
      let ds := rest.takeWhile Char.isDigit
      if ds.isEmpty then none else some (-(digitsVal ds : Int))
  | '+' :: rest =>
      let ds := rest.takeWhile Char.isDigit
      if ds.isEmpty then none else some (digitsVal ds : Int)
  | _ =>
      let ds := s.takeWhile Char.isDigit
      if ds.isEmpty then none else some (digitsVal ds : Int)

/-- Accumulator-based splitter: splitAcc sep acc s returns the maximal
nonempty runs of non-sep characters of (acc.reverse ++ s), acc being the
partial current run read so far (reversed). -/
def splitAcc (sep : Char) : List Char → List Char → List (List Char)
  | acc, [] => if acc.isEmpty then [] else [acc.reverse]
  | acc, c :: rest =>
      if c = sep then
        if acc.isEmpty then splitAcc sep [] rest
        else acc.reverse :: splitAcc sep [] rest
      else splitAcc sep (c :: acc) rest

/-- tokenize models the strtok(buf, sep) loop of the C code: the maximal
nonempty runs of characters different from sep, in order. -/
def tokenize (sep : Char) (s : List Char) : List (List Char) := splitAcc sep [] s

/-- writeAt i xs img models memcpy(img + i, xs, |xs|) on a mapped image
that is at least i + |xs| bytes long. -/
def writeAt (i : Nat) (xs img : List Char) : List Char :=
  img.take i ++ xs ++ img.drop (i + xs.length)

/-- matchAt pat img i holds when memcmp(img + i, pat, |pat|) == 0 and the
pattern fits inside the image at offset i. -/
def matchAt (pat img : List Char) (i : Nat) : Bool :=
  decide ((img.drop i).take pat.length = pat)

/-- firstMatch models the linear scans `for i < size, memcmp(buf+i, pat)`
of patch_ramdisk and patch_socket_name: the first offset at which the
pattern occurs. -/
def firstMatch (pat img : List Char) : Option Nat :=
  (List.range img.length).find? (matchAt pat img)

/-- endsWith suf s models strend(s, suf) == 0.  (When s is shorter than
suf the C code reads before the start of the buffer; for the filenames the
code inspects this still compares unequal, which is what we model.) -/
def endsWith (suf s : List Char) : Bool :=
  decide (s.length ≥ suf.length ∧ s.drop (s.length - suf.length) = suf)

/-! ### struct cmdline and parse_cmdline (magiskinit.c lines 61-98) -/

/-- struct cmdline: skip_initramfs flag and the 3-byte slot buffer.  The
buffer is zero-initialized by the memset at the start of parse_cmdline. -/
structure Cmdline where
  skip_initramfs : Bool
  slot0 : Char
  slot1 : Char
  slot2 : Char
deriving DecidableEq, Repr

/-- The zero-initialized cmdline struct. -/
def cmdInit : Cmdline := ⟨false, nul, nul, nul⟩

/-- The C-string value of the slot buffer. -/
def slotStr (c : Cmdline) : List Char := cstr [c.slot0, c.slot1, c.slot2]

/-- writeSlot models sscanf writing the word xs (already including its
terminating NUL) into the 3-byte slot buffer: bytes past the end of xs
keep their previous value.  (A word longer than 2 characters overflows the
C buffer, which is undefined behaviour; theorems restrict to words that
fit.) -/
def writeSlot (c : Cmdline) (xs : List Char) : Cmdline :=
  { c with
    slot0 := xs.getD 0 c.slot0
    slot1 := xs.getD 1 c.slot1
    slot2 := xs.getD 2 c.slot2 }

/-- One iteration of the strtok loop of parse_cmdline (lines 86-95):
the strncmp / sscanf / strcmp cascade applied to a single token. -/
def cmdline_step (cmd : Cmdline) (tok : List Char) : Cmdline :=
  if hasPfx (s2l "androidboot.slot_suffix") tok then
    match afterLit (s2l "androidboot.slot_suffix=") tok with
    | some rest =>
        match scanStr rest with
        | some w => writeSlot cmd (w ++ [nul])
        | none => cmd
    | none => cmd
  else if hasPfx (s2l "androidboot.slot") tok then
    let cmd := { cmd with slot0 := '_' }
    match afterLit (s2l "androidboot.slot=") tok with
    | some (ch :: _) => { cmd with slot1 := ch }
    | _ => cmd
  else if tok = s2l "skip_initramfs" then
    { cmd with skip_initramfs := true }
  else cmd

/-- The strtok fold of parse_cmdline over an already-tokenized command
line. -/
def parse_cmdline_toks (toks : List (List Char)) : Cmdline :=
  toks.foldl cmdline_step cmdInit

/-- parse_cmdline (lines 74-98) as a function of the /proc/cmdline
contents: zero the struct, split the buffer on spaces with strtok and
process each token in order. -/
def parse_cmdline (raw : List Char) : Cmdline :=
  parse_cmdline_toks (tokenize ' ' raw)

/-- The androidboot.slot=<c> token. -/
def slotTok (c : Char) : List Char := s2l "androidboot.slot=" ++ [c]

/-- The androidboot.slot_suffix=<s> token. -/
def sufTok (s : List Char) : List Char := s2l "androidboot.slot_suffix=" ++ s

/-! ### struct device, parse_device and setup_block (lines 66-152) -/

/-- struct device: major/minor numbers and the devname/partname buffers
(modelled as their C-string values). -/
structure Device where
  major : Int
  minor : Int
  devname : List Char
  partname : List Char
deriving DecidableEq, Repr

/-- One iteration of the strtok("\n") loop of parse_device (lines 105-116):
the strncmp / sscanf cascade applied to one line of a uevent file.  A line
whose literal part or whose conversion fails leaves the field unchanged,
exactly as a failing sscanf does. -/
def dev_line_step (dev : Device) (l : List Char) : Device :=
  if hasPfx (s2l "MAJOR") l then
    match afterLit (s2l "MAJOR=") l with
    | some rest =>
        match scanLong rest with
        | some v => { dev with major := v }
        | none => dev
    | none => dev
  else if hasPfx (s2l "MINOR") l then
    match afterLit (s2l "MINOR=") l with
    | some rest =>
        match scanLong rest with
        | some v => { dev with minor := v }
        | none => dev
    | none => dev
  else if hasPfx (s2l "DEVNAME") l then
    match afterLit (s2l "DEVNAME=") l with
    | some rest =>
        match scanStr rest with
        | some w => { dev with devname := w }
        | none => dev
    | none => dev
  else if hasPfx (s2l "PARTNAME") l then
    match afterLit (s2l "PARTNAME=") l with
    | some rest =>
        match scanStr rest with
        | some w => { dev with partname := w }
        | none => dev
    | none => dev
  else dev

/-- parse_device (lines 100-118): reset only the partname field
(dev->partname[0] = 0), then process each newline-separated line of the
uevent text.  All other fields keep whatever value they held before the
call. -/
def parse_device (dev : Device) (uevent : List Char) : Device :=
  (tokenize '\n' uevent).foldl dev_line_step { dev with partname := [] }

/-- The PARTNAME a uevent text assigns; parse_device resets partname before
parsing, so this is independent of the incoming device struct. -/
def entryPart (uevent : List Char) : List Char :=
  (parse_device ⟨0, 0, [], []⟩ uevent).partname

/-- The mknod performed by setup_block on success: the path
/dev/block/devname and the major/minor pair passed to makedev. -/
structure MknodSpec where
  path : List Char
  major : Int
  minor : Int
deriving DecidableEq, Repr

/-- The readdir loop of setup_block (lines 128-142): skip "." and "..",
parse each uevent into the single struct device (stale fields carry over
between entries), stop at the first entry whose PARTNAME equals the
requested partition name.  Entries are pairs (directory entry name, uevent
file contents). -/
def sb_scan (pname : List Char) (dev : Device) :
    List (List Char × List Char) → Option Device
  | [] => none
  | (nm, ue) :: rest =>
      if nm = s2l "." ∨ nm = s2l ".." then sb_scan pname dev rest
      else
        let d := parse_device dev ue
        if d.partname = pname then some d else sb_scan pname d rest

/-- setup_block (lines 120-152) over a directory listing: none models the
return value 1 with no device node created; some spec models the return
value 0 after mknod("/dev/block/devname", makedev(major, minor)). -/
def setup_block (dev : Device) (entries : List (List Char × List Char))
    (pname : List Char) : Option MknodSpec :=
  (sb_scan pname dev entries).map
    (fun d => ⟨s2l "/dev/block/" ++ d.devname, d.major, d.minor⟩)

/-! ### patch_ramdisk: the /init binary signature patch (lines 154-165) -/

/-- Modelled from the spec: SPLIT_PLAT_CIL is the fixed SELinux platform
policy pathname string; the macro itself lives in magisk.h, which is not
part of src/.  Only its length and its last three characters matter to the
claims; the value is the Android split-sepolicy platform CIL path the file
uses both as a path and as the byte pattern scanned for inside /init. -/
def SPLIT_PLAT_CIL : List Char := s2l "/system/etc/selinux/plat_sepolicy.cil"

/-- The /init image patch of patch_ramdisk (lines 158-165): scan the mapped
image for the first occurrence of SPLIT_PLAT_CIL (memcmp over
sizeof(SPLIT_PLAT_CIL) - 1 = 37 bytes) and overwrite the three bytes at
offset i + sizeof(SPLIT_PLAT_CIL) - 4 = i + 34 with "xxx"; without a match
the image is untouched. -/
def patch_ramdisk_image (img : List Char) : List Char :=
  match firstMatch SPLIT_PLAT_CIL img with
  | some i => writeAt (i + (SPLIT_PLAT_CIL.length - 3)) (s2l "xxx") img
  | none => img

/-- What claim C3 says patch_ramdisk does: overwrite the 3-byte region just
past the match (offsets i + 37 .. i + 39) with the marker.  Kept separate
so the counterexample can compare it against the code. -/
def c3_claimed_patch (img : List Char) : List Char :=
  match firstMatch SPLIT_PLAT_CIL img with
  | some i => writeAt (i + SPLIT_PLAT_CIL.length) (s2l "xxx") img
  | none => img

/-! ### PolicyFS, verify_precompiled and patch_sepolicy (lines 242-302) -/

/-- The read-the-first-sha256-file loop of verify_precompiled: skip "." and
"..", pick the first directory entry ending in ".sha256" and read its
contents into a 70-byte buffer, overwriting the last byte read with NUL
(buf[read(fd,buf,70) - 1] = 0), so the value is the C string formed by the
first min(size,70) bytes with the final one dropped.  none models a
directory with no such entry, in which case the C code keeps the
deliberately different initial buffer values. -/
def firstShaRead : List (List Char × List Char) → Option (List Char)
  | [] => none
  | (nm, content) :: rest =>
      if nm = s2l "." ∨ nm = s2l ".." then firstShaRead rest
      else if endsWith (s2l ".sha256") nm then
        some (cstr ((content.take 70).dropLast))
      else firstShaRead rest

/-- The filesystem state patch_sepolicy and verify_precompiled consult:
readability of /sepolicy, of the precompiled split policy and of the
platform CIL source, and the directory listings (name, file contents) of
the vendor (nonplat) and platform policy directories. -/
structure PolicyFS where
  sepolicy_r : Bool
  precompile_r : Bool
  plat_cil_r : Bool
  nonplat_entries : List (List Char × List Char)
  plat_entries : List (List Char × List Char)

/-- verify_precompiled (lines 242-279): read the first *.sha256 file of the
vendor policy directory and of the platform policy directory and compare
the two texts with strcmp.  When either directory has no *.sha256 entry the
corresponding buffer keeps its initial value, and the two initial values
are deliberately different (sys_sha[0] = 0, ven_sha[0] = 1), so the
comparison fails; we model that case as false. -/
def verify_precompiled (fs : PolicyFS) : Bool :=
  match firstShaRead fs.plat_entries, firstShaRead fs.nonplat_entries with
  | some s, some v => s == v
  | _, _ => false

/-- The three policy sources of patch_sepolicy. -/
inductive PolicySource where
  | plain
  | precompiled
  | compiledFromCil
deriving DecidableEq, Repr

/-- Result of patch_sepolicy: the returned int, the source committed to
(none when resolution failed) and whether compile_cil was invoked. -/
structure PSRes where
  status : Int
  source : Option PolicySource
  cilInvoked : Bool
deriving DecidableEq, Repr

/-- patch_sepolicy (lines 281-302): the if / else-if cascade over the three
policy sources.  /sepolicy readable loads the monolithic policy; otherwise
a readable precompiled policy with matching fingerprints loads the
precompiled image (compile_cil is not called); otherwise a readable
platform CIL source triggers compile_cil; otherwise return 1 to the caller.
The post-resolution steps (sepol_magisk_rules, dump_policydb, the
/sepolicy_debug hard link) happen on every success path and do not affect
the quantities the claims are about. -/
def patch_sepolicy (fs : PolicyFS) : PSRes :=
  if fs.sepolicy_r then ⟨0, some .plain, false⟩
  else if fs.precompile_r && verify_precompiled fs then ⟨0, some .precompiled, false⟩
  else if fs.plat_cil_r then ⟨0, some .compiledFromCil, true⟩
  else ⟨1, none, false⟩

/-! ### unxz and dump_magisk (lines 304-337) -/

/-- A file: its creation mode and its contents. -/
structure CFile where
  mode : Nat
  data : List Char
deriving DecidableEq, Repr

/-- A flat filesystem: an association list from paths to files. -/
def FsMap := List (List Char × CFile)

/-- Look a path up. -/
def fsGet (fs : FsMap) (p : List Char) : Option CFile :=
  (fs.find? (fun e => e.1 == p)).map Prod.snd

/-- unlink(p). -/
def fsErase (fs : FsMap) (p : List Char) : FsMap :=
  fs.filter (fun e => e.1 != p)

/-- Overwrite or create the file at p. -/
def fsSet (fs : FsMap) (p : List Char) (f : CFile) : FsMap :=
  (p, f) :: fsErase fs p

/-- unxz (lines 306-328) at the granularity the claims need.  The lzma
decoder itself is an external collaborator; its outcome is passed in as a
parameter: ok out is a run that ends with LZMA_STREAM_END having produced
out, error part is a run that stops with an error after the loop has
already written the chunks part to the output fd.  unxz returns 0 on
success and 1 on failure, and in both cases every produced chunk has been
written to the fd before it returns. -/
def unxz (dec : Except (List Char) (List Char)) : Int × List Char :=
  match dec with
  | .ok out => (0, out)
  | .error part => (1, part)

/-- dump_magisk (lines 330-337): unlink(path); creat(path, mode); stream
the embedded payload through unxz into the new file; return the unxz
status.  The file keeps whatever bytes unxz wrote even when unxz fails. -/
def dump_magisk (fs : FsMap) (path : List Char) (mode : Nat)
    (dec : Except (List Char) (List Char)) : Int × FsMap :=
  let fs := fsErase fs path
  let fs := fsSet fs path ⟨mode, []⟩
  let r := unxz dec
  (r.1, fsSet fs path ⟨mode, r.2⟩)

/-! ### patch_socket_name (lines 58-59, 347-363) -/

/-- Result of one patch_socket_name call: whether the guarded linear scan
ran (SOCKET_OFF < 0 on entry), the value of SOCKET_OFF afterwards, and the
patched image.  out = none models the undefined memcpy that the C code
would perform at buf + SOCKET_OFF with SOCKET_OFF still -1 (placeholder
absent). -/
structure SockRes where
  scanned : Bool
  off : Int
  out : Option (List Char)
deriving DecidableEq, Repr

/-- patch_socket_name (lines 347-363), parameterized by the placeholder
string sock (SOCKET_NAME lives in magisk.h, outside src/; only its bytes
and length matter).  The scan compares sizeof(SOCKET_NAME) bytes, i.e. the
placeholder including its NUL terminator, and runs only while the cached
static SOCKET_OFF is negative; the memcpy then writes the
sizeof(SOCKET_NAME)-byte buffer r (the freshly generated random name plus
NUL) at the cached offset. -/
def patch_socket_name (sock : List Char) (off : Int) (file : List Char)
    (r : List Char) : SockRes :=
  let scanned := off < 0
  let off2 : Int :=
    if off < 0 then
      match firstMatch (sock ++ [nul]) file with
      | some i => (i : Int)
      | none => -1
    else off
  if off2 < 0 then ⟨scanned, off2, none⟩
  else ⟨scanned, off2, some (writeAt off2.toNat r file)⟩

/-! ### Root population (main, lines 401-428) -/

/-- The observable actions of the root-population phase. -/
inductive RootAct where
  | wipeExcept (excl : List (List Char))
  | unxzRamdisk
  | parseCpio
  | extractAll
  | unlinkInit
  | linkBackup
deriving DecidableEq, Repr

/-- The exclusion list installed before frm_rf(root) on the skip_initramfs
path (line 405). -/
def EXCL_SKIP : List (List Char) := [s2l "overlay", s2l ".backup", s2l "init.bak"]

/-- The exclusion list installed before frm_rf(root) on the
high-compression /ramdisk.cpio.xz path (line 419). -/
def EXCL_XZ : List (List Char) := [s2l "overlay", s2l ".backup"]

/-- The root-population branch of main (lines 403-428) as the sequence of
actions it performs, decided by skip_initramfs and by the readability of
/ramdisk.cpio.xz.  On the high-compression path the archive is
decompressed and parsed before the wipe, and extracted after it. -/
def populate_root (skip_initramfs xz_readable : Bool) : List RootAct :=
  if skip_initramfs then
    [.wipeExcept EXCL_SKIP]
  else if xz_readable then
    [.unxzRamdisk, .parseCpio, .wipeExcept EXCL_XZ, .extractAll]
  else
    [.unlinkInit, .linkBackup]

/-- First exclusion list appearing in a root-population action sequence. -/
def exclOf (acts : List RootAct) : List (List Char) :=
  match acts.filterMap (fun a => match a with
    | .wipeExcept e => some e
    | _ => none) with
  | e :: _ => e
  | [] => []

/-! ### The tail of main: patch phase, cleanup, handover (lines 472-501) -/

/-- Observable events of the patch / cleanup / handover tail of main. -/
inductive Ev where
  | overlayMerge
  | patchRamdiskEv
  | patchSepolicyEv (status : Int)
  | dumpMagiskRcEv
  | dumpMagiskEv
  | patchSocketEv
  | renameInitBak
  | closeRoot
  | umountSystem
  | umountVendor
  | execInit
  | abortProcess
deriving DecidableEq, Repr

/-- State consulted by the tail of main: the policy filesystem state plus
the recovery marker, the /overlay directory and the parsed skip_initramfs
flag. -/
structure BootFS where
  pol : PolicyFS
  recovery_present : Bool
  overlay_present : Bool
  skip_initramfs : Bool

/-- The tail of main (lines 472-501) as its event trace: the whole patch
phase is skipped when /etc/recovery.fstab exists; patch_sepolicy is called
and its return value is dropped on the floor (the C code does not even
bind it); the payload dumps, the rename of /init.bak, the cleanup and the
final execv follow unconditionally.  No branch of this code terminates the
process before the execv, so no abortProcess event is ever emitted. -/
def boot_tail_trace (fs : BootFS) : List Ev :=
  (if fs.recovery_present then []
   else
     (if fs.overlay_present then [.overlayMerge] else [])
       ++ [.patchRamdiskEv, .patchSepolicyEv (patch_sepolicy fs.pol).status,
           .dumpMagiskRcEv, .dumpMagiskEv, .patchSocketEv, .renameInitBak])
  ++ [.closeRoot]
  ++ (if fs.skip_initramfs then [] else [.umountSystem])
  ++ [.umountVendor, .execInit]

/-! ### Helper lemmas about the string primitives -/

theorem splitAcc_no_sep (sep : Char) (acc l : List Char)
    (h : ∀ c ∈ l, c ≠ sep) (hne : acc.reverse ++ l ≠ []) :
    splitAcc sep acc l = [acc.reverse ++ l] := by
  induction l generalizing acc with
  | nil =>
      have hacc : ¬ acc.isEmpty := by
        simp only [List.append_nil] at hne
        simpa [List.isEmpty_iff] using fun he => hne (by simp [he])
      simp [splitAcc, hacc]
  | cons c rest ih =>
      have hc : c ≠ sep := h c (by simp)
      have := ih (c :: acc) (fun x hx => h x (by simp [hx]))
        (by simp)
      simpa [splitAcc, hc, List.append_assoc] using this

theorem tokenize_single (sep : Char) (l : List Char)
    (hne : l ≠ []) (h : ∀ c ∈ l, c ≠ sep) : tokenize sep l = [l] := by
  simpa [tokenize] using splitAcc_no_sep sep [] l h (by simpa)

theorem takeWhile_all {p : Char → Bool} {l : List Char}
    (h : ∀ a ∈ l, p a = true) : l.takeWhile p = l :=
  List.takeWhile_eq_self_iff.2 h

theorem scanStr_all_nonws (s : List Char) (hne : s ≠ [])
    (h : ∀ c ∈ s, isWs c = false) : scanStr s = some s := by
  obtain ⟨a, rest, rfl⟩ := List.exists_cons_of_ne_nil hne
  have ha : isWs a = false := h a (by simp)
  have hdrop : List.dropWhile isWs (a :: rest) = a :: rest := by
    simp [List.dropWhile_cons, ha]
  have htake : List.takeWhile (fun c => !isWs c) (a :: rest) = a :: rest :=
    takeWhile_all (fun c hc => by simp [h c hc])
  simp [scanStr, hdrop, htake]

theorem hasPfx_self_append (p s : List Char) : hasPfx p (p ++ s) = true := by
  simp [hasPfx, List.take_left]

theorem afterLit_self (p s : List Char) : afterLit p (p ++ s) = some s := by
  simp [afterLit, hasPfx_self_append, List.drop_left]

theorem hasPfx_append_true {p q : List Char} (s : List Char)
    (hle : p.length ≤ q.length) (h : hasPfx p q = true) :
    hasPfx p (q ++ s) = true := by
  simp only [hasPfx, decide_eq_true_eq] at h ⊢
  rw [List.take_append_of_le_length hle, h]

theorem hasPfx_append_false {p q : List Char} (s : List Char)
    (hle : p.length ≤ q.length) (h : hasPfx p q = false) :
    hasPfx p (q ++ s) = false := by
  simp only [hasPfx, decide_eq_false_iff_not] at h ⊢
  rw [List.take_append_of_le_length hle]
  exact h

theorem hasPfx_false_of_short {p t : List Char} (h : t.length < p.length) :
    hasPfx p t = false := by
  simp only [hasPfx, decide_eq_false_iff_not]
  intro hEq
  have := congrArg List.length hEq
  simp only [List.length_take] at this
  omega

theorem hasPfx_of_longer {p q t : List Char} (hle : p.length ≤ q.length)
    (hpq : hasPfx p q = true) (h : hasPfx q t = true) : hasPfx p t = true := by
  simp only [hasPfx, decide_eq_true_eq] at hpq h ⊢
  calc t.take p.length = (t.take q.length).take p.length := by
        rw [List.take_take, Nat.min_eq_left hle]
    _ = q.take p.length := by rw [h]
    _ = p := hpq

theorem matchAt_le {pat img : List Char} {i : Nat} (hne : pat ≠ [])
    (h : matchAt pat img i = true) : i + pat.length ≤ img.length := by
  simp only [matchAt, decide_eq_true_eq] at h
  have hlen := congrArg List.length h
  simp only [List.length_take, List.length_drop] at hlen
  have hpos : 0 < pat.length := List.length_pos.2 hne
  omega

theorem firstMatch_some {pat img : List Char} {i : Nat}
    (h : firstMatch pat img = some i) :
    matchAt pat img i = true ∧ i < img.length :=
  ⟨List.find?_some h, List.mem_range.1 (List.mem_of_find?_eq_some h)⟩

theorem length_writeAt {i : Nat} {xs img : List Char}
    (h : i + xs.length ≤ img.length) : (writeAt i xs img).length = img.length := by
  simp only [writeAt, List.length_append, List.length_take, List.length_drop]
  omega

theorem take_writeAt {i : Nat} {xs img : List Char} (h : i ≤ img.length) :
    (writeAt i xs img).take i = img.take i := by
  have h1 : (img.take i).length = i := by
    rw [List.length_take]; omega
  unfold writeAt
  rw [List.take_append_of_le_length (by rw [List.length_append]; omega),
    List.take_append_of_le_length (by omega), List.take_take]
  simp

theorem seg_writeAt {i : Nat} {xs img : List Char} (h : i ≤ img.length) :
    ((writeAt i xs img).drop i).take xs.length = xs := by
  have h1 : (img.take i).length = i := by
    rw [List.length_take]; omega
  unfold writeAt
  rw [List.append_assoc]
  have hdrop := List.drop_left (img.take i) (xs ++ img.drop (i + xs.length))
  rw [h1] at hdrop
  rw [hdrop, List.take_left]

theorem drop_writeAt {i : Nat} {xs img : List Char}
    (h : i + xs.length ≤ img.length) :
    (writeAt i xs img).drop (i + xs.length) = img.drop (i + xs.length) := by
  have h1 : (img.take i).length = i := by
    rw [List.length_take]; omega
  unfold writeAt
  have h2 : (img.take i ++ xs).length = i + xs.length := by
    rw [List.length_append, h1]
  have hdrop := List.drop_left (img.take i ++ xs) (img.drop (i + xs.length))
  rw [h2] at hdrop
  exact hdrop

/-! ### Lemmas about cmdline_step -/

theorem cmdline_step_slotTok (cmd : Cmdline) (c : Char) :
    cmdline_step cmd (slotTok c) = { cmd with slot0 := '_', slot1 := c } := by
  have h23 : hasPfx (s2l "androidboot.slot_suffix") (slotTok c) = false := by
    apply hasPfx_false_of_short
    show (s2l "androidboot.slot=" ++ [c]).length < _
    rw [List.length_append]
    have hc1 : [c].length = 1 := rfl
    rw [hc1]
    decide
  have h16 : hasPfx (s2l "androidboot.slot") (slotTok c) = true :=
    hasPfx_append_true [c] (by decide) (by decide)
  have ha : afterLit (s2l "androidboot.slot=") (slotTok c) = some [c] :=
    afterLit_self _ _
  simp [cmdline_step, h23, h16, ha]

theorem cmdline_step_sufTok (cmd : Cmdline) (s : List Char) (hne : s ≠ [])
    (hws : ∀ ch ∈ s, isWs ch = false) :
    cmdline_step cmd (sufTok s) = writeSlot cmd (s ++ [nul]) := by
  have h23 : hasPfx (s2l "androidboot.slot_suffix") (sufTok s) = true :=
    hasPfx_append_true s (by decide) (by decide)
  have ha : afterLit (s2l "androidboot.slot_suffix=") (sufTok s) = some s :=
    afterLit_self _ _
  have hs := scanStr_all_nonws s hne hws
  simp [cmdline_step, h23, ha, hs]

theorem cmdline_step_not_slot (cmd : Cmdline) (tok : List Char)
    (h : hasPfx (s2l "androidboot.slot") tok = false) :
    cmdline_step cmd tok = cmd ∨
      cmdline_step cmd tok = { cmd with skip_initramfs := true } := by
  have h23 : hasPfx (s2l "androidboot.slot_suffix") tok = false := by
    cases hb : hasPfx (s2l "androidboot.slot_suffix") tok
    · rfl
    · exact absurd
        (@hasPfx_of_longer (s2l "androidboot.slot")
          (s2l "androidboot.slot_suffix") tok (by decide) (by decide) hb)
        (by simp [h])
  by_cases hskip : tok = s2l "skip_initramfs"
  · right
    subst hskip
    have hc1 : hasPfx (s2l "androidboot.slot_suffix") (s2l "skip_initramfs") = false := by
      decide
    have hc2 : hasPfx (s2l "androidboot.slot") (s2l "skip_initramfs") = false := by
      decide
    simp [cmdline_step, hc1, hc2]
  · left; simp [cmdline_step, h23, h, hskip]

theorem cmdline_step_neutral (cmd : Cmdline) (tok : List Char)
    (h : hasPfx (s2l "androidboot.slot") tok = false)
    (hskip : tok ≠ s2l "skip_initramfs") : cmdline_step cmd tok = cmd := by
  have h23 : hasPfx (s2l "androidboot.slot_suffix") tok = false := by
    cases hb : hasPfx (s2l "androidboot.slot_suffix") tok
    · rfl
    · exact absurd
        (@hasPfx_of_longer (s2l "androidboot.slot")
          (s2l "androidboot.slot_suffix") tok (by decide) (by decide) hb)
        (by simp [h])
  simp [cmdline_step, h23, h, hskip]

theorem cmdline_step_slot_fields (cmd : Cmdline) (tok : List Char)
    (h : hasPfx (s2l "androidboot.slot") tok = false) :
    (cmdline_step cmd tok).slot0 = cmd.slot0 ∧
    (cmdline_step cmd tok).slot1 = cmd.slot1 ∧
    (cmdline_step cmd tok).slot2 = cmd.slot2 := by
  rcases cmdline_step_not_slot cmd tok h with he | he <;> simp [he]

theorem foldl_slot_fields (toks : List (List Char)) (cmd : Cmdline)
    (h : ∀ t ∈ toks, hasPfx (s2l "androidboot.slot") t = false) :
    (toks.foldl cmdline_step cmd).slot0 = cmd.slot0 ∧
    (toks.foldl cmdline_step cmd).slot1 = cmd.slot1 ∧
    (toks.foldl cmdline_step cmd).slot2 = cmd.slot2 := by
  induction toks generalizing cmd with
  | nil => exact ⟨rfl, rfl, rfl⟩
  | cons t ts ih =>
      obtain ⟨h0, h1, h2⟩ := cmdline_step_slot_fields cmd t (h t (by simp))
      obtain ⟨g0, g1, g2⟩ := ih (cmdline_step cmd t) (fun x hx => h x (by simp [hx]))
      exact ⟨g0.trans h0, g1.trans h1, g2.trans h2⟩

theorem slotStr_congr (x y : Cmdline) (h0 : x.slot0 = y.slot0)
    (h1 : x.slot1 = y.slot1) (h2 : x.slot2 = y.slot2) : slotStr x = slotStr y := by
  simp [slotStr, h0, h1, h2]

theorem slotStr_eval (x : Cmdline) (a b z : Char) (h0 : x.slot0 = a)
    (h1 : x.slot1 = b) (h2 : x.slot2 = z) : slotStr x = cstr [a, b, z] := by
  simp [slotStr, h0, h1, h2]

theorem cstr_two (x y : Char) (hx : x ≠ nul) (hy : y ≠ nul) :
    cstr [x, y, nul] = [x, y] := by
  simp [cstr, List.takeWhile_cons, hx, hy]

theorem cstr_one (x z : Char) (hx : x ≠ nul) : cstr [x, nul, z] = [x] := by
  simp [cstr, List.takeWhile_cons, hx]

/-! ### Claim C4 -/

/-- C4 (amended): parse_cmdline of "androidboot.slot=a skip_initramfs"
yields skip_initramfs = true and slot buffer "_a"; and inserting any token
that does not carry the 16-character prefix androidboot.slot and is not
skip_initramfs anywhere in the token sequence leaves the parsed struct
unchanged.  (The original universal claim, over all tokens not among the
three recognized forms, is refuted by claim_C4_counterexample: a token
with the androidboot.slot prefix that matches neither recognized form
still writes an underscore into the first slot byte.) -/
theorem claim_C4_parse_cmdline :
    (parse_cmdline (s2l "androidboot.slot=a skip_initramfs")
        = ⟨true, '_', 'a', nul⟩
      ∧ slotStr (parse_cmdline (s2l "androidboot.slot=a skip_initramfs"))
        = s2l "_a")
    ∧ (∀ (pre post : List (List Char)) (tok : List Char),
        hasPfx (s2l "androidboot.slot") tok = false →
        tok ≠ s2l "skip_initramfs" →
        parse_cmdline_toks (pre ++ tok :: post) = parse_cmdline_toks (pre ++ post)) := by
  constructor
  · exact ⟨by decide, by decide⟩
  · intro pre post tok h hskip
    simp only [parse_cmdline_toks, List.foldl_append, List.foldl_cons]
    rw [cmdline_step_neutral _ tok h hskip]

/-- Witness for claim_C4_parse_cmdline at concrete inputs. -/
theorem claim_C4_parse_cmdline_witness :
    parse_cmdline_toks [s2l "foo", s2l "bar"] = parse_cmdline_toks [s2l "foo"] :=
  claim_C4_parse_cmdline.2 [s2l "foo"] [] (s2l "bar") (by decide) (by decide)

/-- Counterexample to C4 as stated: the token androidboot.slotted is not
among the three recognized token forms, yet parsing it does not leave the
CmdlineInfo unaffected — the strncmp(tok, "androidboot.slot", 16) branch
unconditionally writes an underscore into the first slot byte before its
sscanf fails. -/
theorem claim_C4_counterexample :
    parse_cmdline (s2l "androidboot.slotted") = ⟨false, '_', nul, nul⟩
    ∧ parse_cmdline_toks [s2l "androidboot.slotted"] ≠ parse_cmdline_toks [] := by
  decide

/-! ### Claim C5 -/

/-- C5: in a command line containing one androidboot.slot=c token and one
androidboot.slot_suffix=s token, with every other token not carrying the
androidboot.slot prefix, the later of the two tokens determines the final
slot_suffix, in either interleaving.  The suffix is restricted to fit the
3-byte slot buffer (length at most 2, no whitespace, no NUL), since a
longer suffix overflows the C buffer. -/
theorem claim_C5_last_slot_token_wins
    (pre mid post : List (List Char)) (c : Char) (s : List Char)
    (hneutral : ∀ t ∈ pre ++ mid ++ post,
      hasPfx (s2l "androidboot.slot") t = false)
    (hc : c ≠ nul) (hne : s ≠ []) (hlen : s.length ≤ 2)
    (hch : ∀ ch ∈ s, isWs ch = false ∧ ch ≠ nul) :
    slotStr (parse_cmdline_toks (pre ++ sufTok s :: mid ++ slotTok c :: post))
        = ['_', c]
    ∧ slotStr (parse_cmdline_toks (pre ++ slotTok c :: mid ++ sufTok s :: post))
        = s := by
  have hpre : ∀ t ∈ pre, hasPfx (s2l "androidboot.slot") t = false :=
    fun t ht => hneutral t (by simp [ht])
  have hmid : ∀ t ∈ mid, hasPfx (s2l "androidboot.slot") t = false :=
    fun t ht => hneutral t (by simp [ht])
  have hpost : ∀ t ∈ post, hasPfx (s2l "androidboot.slot") t = false :=
    fun t ht => hneutral t (by simp [ht])
  have hws : ∀ ch ∈ s, isWs ch = false := fun ch h => (hch ch h).1
  have hnn : ∀ ch ∈ s, ch ≠ nul := fun ch h => (hch ch h).2
  obtain ⟨hA0, hA1, hA2⟩ := foldl_slot_fields pre cmdInit hpre
  rcases s with _ | ⟨a, s1⟩
  · exact absurd rfl hne
  have ha : a ≠ nul := hnn a (by simp)
  rcases s1 with _ | ⟨b, s2⟩
  · -- s = [a]
    constructor
    · -- suffix earlier, slot later: the slot token wins
      simp only [parse_cmdline_toks, List.foldl_append, List.foldl_cons]
      rw [cmdline_step_sufTok _ [a] hne hws, cmdline_step_slotTok]
      obtain ⟨hC0, hC1, hC2⟩ := foldl_slot_fields mid
        (writeSlot (pre.foldl cmdline_step cmdInit) ([a] ++ [nul])) hmid
      obtain ⟨hF0, hF1, hF2⟩ := foldl_slot_fields post
        { mid.foldl cmdline_step
            (writeSlot (pre.foldl cmdline_step cmdInit) ([a] ++ [nul])) with
          slot0 := '_', slot1 := c } hpost
      rw [slotStr_eval _ '_' c nul (hF0.trans rfl) (hF1.trans rfl)
        (hF2.trans (hC2.trans (hA2.trans rfl)))]
      exact cstr_two '_' c (by decide) hc
    · -- slot earlier, suffix later: the suffix token wins
      simp only [parse_cmdline_toks, List.foldl_append, List.foldl_cons]
      rw [cmdline_step_slotTok, cmdline_step_sufTok _ [a] hne hws]
      obtain ⟨hC0, hC1, hC2⟩ := foldl_slot_fields mid
        { pre.foldl cmdline_step cmdInit with slot0 := '_', slot1 := c } hmid
      obtain ⟨hF0, hF1, hF2⟩ := foldl_slot_fields post
        (writeSlot (mid.foldl cmdline_step
            { pre.foldl cmdline_step cmdInit with slot0 := '_', slot1 := c })
          ([a] ++ [nul])) hpost
      rw [slotStr_eval _ a nul
        (mid.foldl cmdline_step
            { pre.foldl cmdline_step cmdInit with
              slot0 := '_', slot1 := c }).slot2
        (hF0.trans rfl) (hF1.trans rfl) (hF2.trans rfl)]
      exact cstr_one a _ ha
  have hb : b ≠ nul := hnn b (by simp)
  rcases s2 with _ | ⟨x, s3⟩
  · -- s = [a, b]
    constructor
    · -- suffix earlier, slot later: the slot token wins
      simp only [parse_cmdline_toks, List.foldl_append, List.foldl_cons]
      rw [cmdline_step_sufTok _ [a, b] hne hws, cmdline_step_slotTok]
      obtain ⟨hC0, hC1, hC2⟩ := foldl_slot_fields mid
        (writeSlot (pre.foldl cmdline_step cmdInit) ([a, b] ++ [nul])) hmid
      obtain ⟨hF0, hF1, hF2⟩ := foldl_slot_fields post
        { mid.foldl cmdline_step
            (writeSlot (pre.foldl cmdline_step cmdInit) ([a, b] ++ [nul])) with
          slot0 := '_', slot1 := c } hpost
      rw [slotStr_eval _ '_' c nul (hF0.trans rfl) (hF1.trans rfl)
        (hF2.trans (hC2.trans rfl))]
      exact cstr_two '_' c (by decide) hc
    · -- slot earlier, suffix later: the suffix token wins
      simp only [parse_cmdline_toks, List.foldl_append, List.foldl_cons]
      rw [cmdline_step_slotTok, cmdline_step_sufTok _ [a, b] hne hws]
      obtain ⟨hC0, hC1, hC2⟩ := foldl_slot_fields mid
        { pre.foldl cmdline_step cmdInit with slot0 := '_', slot1 := c } hmid
      obtain ⟨hF0, hF1, hF2⟩ := foldl_slot_fields post
        (writeSlot (mid.foldl cmdline_step
            { pre.foldl cmdline_step cmdInit with slot0 := '_', slot1 := c })
          ([a, b] ++ [nul])) hpost
      rw [slotStr_eval _ a b nul (hF0.trans rfl) (hF1.trans rfl)
        (hF2.trans rfl)]
      exact cstr_two a b ha hb
  · -- a suffix longer than 2 characters would overflow the C buffer
    simp at hlen

/-- Witness for claim_C5_last_slot_token_wins at concrete inputs. -/
theorem claim_C5_last_slot_token_wins_witness :
    slotStr (parse_cmdline_toks
        [s2l "foo", sufTok (s2l "_b"), s2l "skip_initramfs", slotTok 'a'])
      = ['_', 'a']
    ∧ slotStr (parse_cmdline_toks
        [s2l "foo", slotTok 'a', s2l "skip_initramfs", sufTok (s2l "_b")])
      = s2l "_b" :=
  claim_C5_last_slot_token_wins [s2l "foo"] [s2l "skip_initramfs"] [] 'a'
    (s2l "_b") (by decide) (by decide) (by decide) (by decide) (by decide)

/-! ### Claim C1 -/

/-- C1: patch_sepolicy tries exactly three sources in strict order and
commits to the first applicable one — a readable /sepolicy is loaded
directly; otherwise a readable precompiled split policy whose platform and
vendor signature texts compare exactly equal is loaded without invoking
the CIL compiler; otherwise a readable platform CIL source is compiled;
otherwise the function returns 1 to its caller.  The last conjunct spells
out that the fingerprint check is exact textual equality of the two
first-found signature files. -/
theorem claim_C1_policy_resolution_order (fs : PolicyFS) :
    (fs.sepolicy_r = true →
      patch_sepolicy fs = ⟨0, some PolicySource.plain, false⟩)
    ∧ (fs.sepolicy_r = false → fs.precompile_r = true →
        verify_precompiled fs = true →
        patch_sepolicy fs = ⟨0, some PolicySource.precompiled, false⟩)
    ∧ (fs.sepolicy_r = false →
        (fs.precompile_r = false ∨ verify_precompiled fs = false) →
        fs.plat_cil_r = true →
        patch_sepolicy fs = ⟨0, some PolicySource.compiledFromCil, true⟩)
    ∧ (fs.sepolicy_r = false →
        (fs.precompile_r = false ∨ verify_precompiled fs = false) →
        fs.plat_cil_r = false → patch_sepolicy fs = ⟨1, none, false⟩)
    ∧ (∀ sig vsig, firstShaRead fs.plat_entries = some sig →
        firstShaRead fs.nonplat_entries = some vsig →
        (verify_precompiled fs = true ↔ sig = vsig)) := by
  refine ⟨?_, ?_, ?_, ?_, ?_⟩
  · intro h; simp [patch_sepolicy, h]
  · intro h1 h2 h3; simp [patch_sepolicy, h1, h2, h3]
  · intro h1 h2 h3
    rcases h2 with h2 | h2 <;> simp [patch_sepolicy, h1, h2, h3]
  · intro h1 h2 h3
    rcases h2 with h2 | h2 <;> simp [patch_sepolicy, h1, h2, h3]
  · intro sig vsig h1 h2
    simp [verify_precompiled, h1, h2]

/-- Witness for claim_C1_policy_resolution_order: equal fingerprints select
the precompiled branch without CIL compilation. -/
theorem claim_C1_policy_resolution_order_witness :
    patch_sepolicy
        ⟨false, true, true,
         [(s2l "precompiled_sepolicy.plat.sha256", s2l "abc123\n")],
         [(s2l "plat_sepolicy.cil.sha256", s2l "abc123\n")]⟩
      = ⟨0, some PolicySource.precompiled, false⟩ :=
  (claim_C1_policy_resolution_order
      ⟨false, true, true,
       [(s2l "precompiled_sepolicy.plat.sha256", s2l "abc123\n")],
       [(s2l "plat_sepolicy.cil.sha256", s2l "abc123\n")]⟩).2.1
    rfl rfl (by decide)

/-! ### Claim C2 -/

/-- Counterexample to C2 as stated: the exclusion set of the
high-compression path, {overlay, .backup}, is smaller than the
skip_initramfs exclusion set {overlay, .backup, init.bak} — not "slightly
larger" as the claim asserts. -/
theorem claim_C2_counterexample :
    populate_root true false = [RootAct.wipeExcept EXCL_SKIP]
    ∧ populate_root false true
      = [RootAct.unxzRamdisk, RootAct.parseCpio, RootAct.wipeExcept EXCL_XZ,
         RootAct.extractAll]
    ∧ (exclOf (populate_root false true)).length
        < (exclOf (populate_root true false)).length
    ∧ ¬ (exclOf (populate_root true false)).length
        < (exclOf (populate_root false true)).length := by
  decide

/-- C2 (amended): the root-population phase executes exactly one of three
mutually exclusive paths, decided in this order: skip_initramfs wipes the
root except {overlay, .backup, init.bak}; otherwise a readable
/ramdisk.cpio.xz is decompressed and parsed, the root is wiped except the
different, one-element-smaller subset {overlay, .backup}, and the archive
is extracted; otherwise the current /init is deleted and the preserved
backup is hard-linked back. -/
theorem claim_C2_populate_root (skip xz : Bool) :
    (skip = true → populate_root skip xz = [RootAct.wipeExcept EXCL_SKIP])
    ∧ (skip = false → xz = true →
        populate_root skip xz
          = [RootAct.unxzRamdisk, RootAct.parseCpio,
             RootAct.wipeExcept EXCL_XZ, RootAct.extractAll])
    ∧ (skip = false → xz = false →
        populate_root skip xz = [RootAct.unlinkInit, RootAct.linkBackup])
    ∧ (∀ x ∈ EXCL_XZ, x ∈ EXCL_SKIP)
    ∧ EXCL_XZ.length + 1 = EXCL_SKIP.length := by
  cases skip <;> cases xz <;> decide

/-- Witness for claim_C2_populate_root on the high-compression path. -/
theorem claim_C2_populate_root_witness :
    populate_root false true
      = [RootAct.unxzRamdisk, RootAct.parseCpio, RootAct.wipeExcept EXCL_XZ,
         RootAct.extractAll] :=
  (claim_C2_populate_root false true).2.1 rfl rfl

/-! ### Claim C8 -/

/-- C8: when policy resolution finds no applicable source patch_sepolicy
returns status 1 to its caller; main never inspects that status, so the
trace continues unchanged through the payload dumps, the init.bak rename,
the cleanup and the final execv, and no event of the tail terminates the
process. -/
theorem claim_C8_boot_continues_on_policy_failure (fs : BootFS)
    (hrec : fs.recovery_present = false)
    (hfail : (patch_sepolicy fs.pol).status = 1) :
    boot_tail_trace fs
      = (if fs.overlay_present then [Ev.overlayMerge] else [])
        ++ [Ev.patchRamdiskEv, Ev.patchSepolicyEv 1, Ev.dumpMagiskRcEv,
            Ev.dumpMagiskEv, Ev.patchSocketEv, Ev.renameInitBak, Ev.closeRoot]
        ++ (if fs.skip_initramfs then [] else [Ev.umountSystem])
        ++ [Ev.umountVendor, Ev.execInit]
    ∧ Ev.abortProcess ∉ boot_tail_trace fs := by
  constructor <;> cases ho : fs.overlay_present <;> cases hs : fs.skip_initramfs <;>
    simp [boot_tail_trace, hrec, hfail, ho, hs]

/-- Witness for claim_C8_boot_continues_on_policy_failure: with no policy
source available the status is 1 and the tail still runs to the execv. -/
theorem claim_C8_boot_continues_on_policy_failure_witness :
    boot_tail_trace ⟨⟨false, false, false, [], []⟩, false, false, false⟩
      = (if (false : Bool) then [Ev.overlayMerge] else [])
        ++ [Ev.patchRamdiskEv, Ev.patchSepolicyEv 1, Ev.dumpMagiskRcEv,
            Ev.dumpMagiskEv, Ev.patchSocketEv, Ev.renameInitBak, Ev.closeRoot]
        ++ (if (false : Bool) then [] else [Ev.umountSystem])
        ++ [Ev.umountVendor, Ev.execInit]
    ∧ Ev.abortProcess
        ∉ boot_tail_trace ⟨⟨false, false, false, [], []⟩, false, false, false⟩ :=
  claim_C8_boot_continues_on_policy_failure
    ⟨⟨false, false, false, [], []⟩, false, false, false⟩ rfl (by decide)

/-! ### Claim C9 -/

theorem fsGet_fsSet (fs : FsMap) (p : List Char) (f : CFile) :
    fsGet (fsSet fs p f) p = some f := by
  simp [fsGet, fsSet, List.find?]

/-- C9: dump_magisk unlinks any existing file at the target path and
creates a fresh file with the requested mode before decompression begins,
so a failing decompression still returns status 1 while the original file
has been removed and the newly created file holding the partially
decompressed bytes remains at the target path. -/
theorem claim_C9_dump_magisk_not_atomic (fs : FsMap) (path : List Char)
    (mode : Nat) (old : CFile) (chunk : List Char)
    (_hold : fsGet fs path = some old) :
    (dump_magisk fs path mode (Except.error chunk)).1 = 1
    ∧ fsGet (dump_magisk fs path mode (Except.error chunk)).2 path
        = some ⟨mode, chunk⟩ := by
  exact ⟨rfl, by simp [dump_magisk, unxz, fsGet_fsSet]⟩

/-- Witness for claim_C9_dump_magisk_not_atomic at a concrete filesystem. -/
theorem claim_C9_dump_magisk_not_atomic_witness :
    (dump_magisk [(s2l "/sbin/magisk", ⟨493, s2l "OLD"⟩)] (s2l "/sbin/magisk")
        493 (Except.error (s2l "PART"))).1 = 1
    ∧ fsGet (dump_magisk [(s2l "/sbin/magisk", ⟨493, s2l "OLD"⟩)]
          (s2l "/sbin/magisk") 493 (Except.error (s2l "PART"))).2
        (s2l "/sbin/magisk")
      = some ⟨493, s2l "PART"⟩ :=
  claim_C9_dump_magisk_not_atomic [(s2l "/sbin/magisk", ⟨493, s2l "OLD"⟩)]
    (s2l "/sbin/magisk") 493 ⟨493, s2l "OLD"⟩ (s2l "PART") (by decide)

/-! ### Lemmas about parse_device and sb_scan -/

theorem dev_line_step_partname_congr (d1 d2 : Device) (l : List Char)
    (h : d1.partname = d2.partname) :
    (dev_line_step d1 l).partname = (dev_line_step d2 l).partname := by
  unfold dev_line_step
  repeat' split
  all_goals simp_all

theorem foldl_partname_congr (ls : List (List Char)) (d1 d2 : Device)
    (h : d1.partname = d2.partname) :
    (ls.foldl dev_line_step d1).partname = (ls.foldl dev_line_step d2).partname := by
  induction ls generalizing d1 d2 with
  | nil => exact h
  | cons l rest ih => exact ih _ _ (dev_line_step_partname_congr d1 d2 l h)

/-- The PARTNAME parse_device yields depends only on the uevent text, since
the field is reset before the line loop runs. -/
theorem parse_device_partname (d : Device) (ue : List Char) :
    (parse_device d ue).partname = entryPart ue := by
  unfold parse_device entryPart parse_device
  exact foldl_partname_congr _ _ _ rfl

theorem sb_scan_nomatch (pname : List Char) (dev : Device)
    (entries : List (List Char × List Char))
    (h : ∀ x ∈ entries, ¬(x.1 = s2l "." ∨ x.1 = s2l "..") →
      entryPart x.2 ≠ pname) :
    sb_scan pname dev entries = none := by
  induction entries generalizing dev with
  | nil => rfl
  | cons e rest ih =>
      rcases e with ⟨nm, ue⟩
      by_cases hd : nm = s2l "." ∨ nm = s2l ".."
      · simp only [sb_scan, if_pos hd]
        exact ih dev (fun x hx => h x (by simp [hx]))
      · have hne : (parse_device dev ue).partname ≠ pname := by
          rw [parse_device_partname]
          exact h (nm, ue) (by simp) hd
        simp only [sb_scan, if_neg hd, if_neg hne]
        exact ih _ (fun x hx => h x (by simp [hx]))

theorem sb_scan_found (pname : List Char) (dev : Device)
    (pre post : List (List Char × List Char)) (nm ue : List Char) (D : Device)
    (hdot : ¬(nm = s2l "." ∨ nm = s2l ".."))
    (hpre : ∀ x ∈ pre, ¬(x.1 = s2l "." ∨ x.1 = s2l "..") →
      entryPart x.2 ≠ pname)
    (hD : ∀ d : Device, parse_device d ue = D)
    (hmatch : D.partname = pname) :
    sb_scan pname dev (pre ++ (nm, ue) :: post) = some D := by
  induction pre generalizing dev with
  | nil =>
      simp only [List.nil_append, sb_scan, if_neg hdot, hD dev, if_pos hmatch]
  | cons e rest ih =>
      rcases e with ⟨enm, eue⟩
      by_cases hd : enm = s2l "." ∨ enm = s2l ".."
      · simp only [List.cons_append, sb_scan, if_pos hd]
        exact ih dev (fun x hx => hpre x (by simp [hx]))
      · have hne : (parse_device dev eue).partname ≠ pname := by
          rw [parse_device_partname]
          exact hpre (enm, eue) (by simp) hd
        simp only [List.cons_append, sb_scan, if_neg hd, if_neg hne]
        exact ih _ (fun x hx => hpre x (by simp [hx]))

/-! ### Claim C6 -/

/-- C6: setup_block scans the entries in enumeration order; for the first
non-dot entry whose uevent assigns PARTNAME equal to the requested name
(and which defines all four fields) it succeeds, creating the device node
at /dev/block/devname with that entry's major/minor pair; with no matching
entry it returns the failure status and creates no device node. -/
theorem claim_C6_setup_block (dev : Device)
    (entries : List (List Char × List Char)) (pname : List Char) :
    ((∀ x ∈ entries, ¬(x.1 = s2l "." ∨ x.1 = s2l "..") →
        entryPart x.2 ≠ pname) → setup_block dev entries pname = none)
    ∧ (∀ (pre post : List (List Char × List Char)) (nm ue : List Char)
        (M N : Int) (dn : List Char),
        entries = pre ++ (nm, ue) :: post →
        ¬(nm = s2l "." ∨ nm = s2l "..") →
        (∀ x ∈ pre, ¬(x.1 = s2l "." ∨ x.1 = s2l "..") →
          entryPart x.2 ≠ pname) →
        (∀ d : Device, parse_device d ue = ⟨M, N, dn, pname⟩) →
        setup_block dev entries pname
          = some ⟨s2l "/dev/block/" ++ dn, M, N⟩) := by
  constructor
  · intro h
    simp [setup_block, sb_scan_nomatch pname dev entries h]
  · intro pre post nm ue M N dn he hdot hpre hcomplete
    subst he
    rw [setup_block,
      sb_scan_found pname dev pre post nm ue ⟨M, N, dn, pname⟩ hdot hpre
        hcomplete rfl]
    rfl

/-- Witness for claim_C6_setup_block: both the found branch (with a
preceding non-matching entry) and the not-found branch at concrete
corpora. -/
theorem claim_C6_setup_block_witness :
    setup_block ⟨0, 0, [], []⟩
        [(s2l "7:0", s2l "MAJOR=7\nMINOR=0\nDEVNAME=loop0\nPARTNAME=OTHER"),
         (s2l "8:2", s2l "MAJOR=8\nMINOR=2\nDEVNAME=sda2\nPARTNAME=SYSTEM_a")]
        (s2l "SYSTEM_a")
      = some ⟨s2l "/dev/block/sda2", 8, 2⟩
    ∧ setup_block ⟨0, 0, [], []⟩
        [(s2l "7:0", s2l "MAJOR=7\nMINOR=0\nDEVNAME=loop0\nPARTNAME=OTHER")]
        (s2l "VENDOR_a")
      = none :=
  ⟨(claim_C6_setup_block ⟨0, 0, [], []⟩
      [(s2l "7:0", s2l "MAJOR=7\nMINOR=0\nDEVNAME=loop0\nPARTNAME=OTHER"),
       (s2l "8:2", s2l "MAJOR=8\nMINOR=2\nDEVNAME=sda2\nPARTNAME=SYSTEM_a")]
      (s2l "SYSTEM_a")).2
    [(s2l "7:0", s2l "MAJOR=7\nMINOR=0\nDEVNAME=loop0\nPARTNAME=OTHER")] []
    (s2l "8:2") (s2l "MAJOR=8\nMINOR=2\nDEVNAME=sda2\nPARTNAME=SYSTEM_a")
    8 2 (s2l "sda2") rfl (by decide) (by decide) (fun d => rfl),
   (claim_C6_setup_block ⟨0, 0, [], []⟩
      [(s2l "7:0", s2l "MAJOR=7\nMINOR=0\nDEVNAME=loop0\nPARTNAME=OTHER")]
      (s2l "VENDOR_a")).1 (by decide)⟩

/-! ### Claim C10 -/

/-- C10: parse_device resets only the PARTNAME field, so an entry whose
text consists of a single PARTNAME line leaves major, minor and devname at
whatever a previously scanned entry set them to; and setup_block then
builds the device path and node from those stale values when such an
entry matches, as the two-entry corpus shows: the match on the second
entry (PARTNAME only) yields the first entry's major/minor/devname. -/
theorem claim_C10_parse_device_stale_fields :
    (∀ (dev : Device) (p : List Char), p ≠ [] →
        (∀ ch ∈ p, isWs ch = false) →
        parse_device dev (s2l "PARTNAME=" ++ p) = { dev with partname := p })
    ∧ (∀ dev : Device,
        setup_block dev
          [(s2l "8:1", s2l "MAJOR=8\nMINOR=1\nDEVNAME=sda1\nPARTNAME=SYSTEM_a"),
           (s2l "8:2", s2l "PARTNAME=vendor")] (s2l "vendor")
        = some ⟨s2l "/dev/block/sda1", 8, 1⟩) := by
  constructor
  · intro dev p hne hws
    have htok : tokenize '\n' (s2l "PARTNAME=" ++ p) = [s2l "PARTNAME=" ++ p] := by
      apply tokenize_single
      · intro hc
        exact hne (List.append_eq_nil.1 hc).2
      · intro ch hch
        rcases List.mem_append.1 hch with hin | hin
        · have hlit : ∀ c ∈ s2l "PARTNAME=", c ≠ '\n' := by decide
          exact hlit ch hin
        · intro he
          have := hws ch hin
          rw [he] at this
          simp [isWs] at this
    have h1 : hasPfx (s2l "MAJOR") (s2l "PARTNAME=" ++ p) = false :=
      hasPfx_append_false p (by decide) (by decide)
    have h2 : hasPfx (s2l "MINOR") (s2l "PARTNAME=" ++ p) = false :=
      hasPfx_append_false p (by decide) (by decide)
    have h3 : hasPfx (s2l "DEVNAME") (s2l "PARTNAME=" ++ p) = false :=
      hasPfx_append_false p (by decide) (by decide)
    have h4 : hasPfx (s2l "PARTNAME") (s2l "PARTNAME=" ++ p) = true :=
      hasPfx_append_true p (by decide) (by decide)
    have ha : afterLit (s2l "PARTNAME=") (s2l "PARTNAME=" ++ p) = some p :=
      afterLit_self _ _
    have hs : scanStr p = some p := scanStr_all_nonws p hne hws
    unfold parse_device
    rw [htok]
    simp [dev_line_step, h1, h2, h3, h4, ha, hs]
  · intro dev
    rfl

/-- Witness for claim_C10_parse_device_stale_fields at concrete inputs. -/
theorem claim_C10_parse_device_stale_fields_witness :
    parse_device ⟨3, 4, s2l "sda", s2l "OLD"⟩ (s2l "PARTNAME=" ++ s2l "vendor")
      = ⟨3, 4, s2l "sda", s2l "vendor"⟩
    ∧ setup_block ⟨9, 9, s2l "junk", s2l "junk"⟩
        [(s2l "8:1", s2l "MAJOR=8\nMINOR=1\nDEVNAME=sda1\nPARTNAME=SYSTEM_a"),
         (s2l "8:2", s2l "PARTNAME=vendor")] (s2l "vendor")
      = some ⟨s2l "/dev/block/sda1", 8, 1⟩ :=
  ⟨claim_C10_parse_device_stale_fields.1 ⟨3, 4, s2l "sda", s2l "OLD"⟩
      (s2l "vendor") (by decide) (by decide),
   claim_C10_parse_device_stale_fields.2 ⟨9, 9, s2l "junk", s2l "junk"⟩⟩

/-! ### Claim C3 -/

/-- Counterexample to C3 as stated: on an image holding the policy
pathname at offset 0 followed by "ABC", the patch does modify the image
but leaves every byte past the 37-byte match untouched — the marker is
written inside the matched region, not past it, so the result differs
from the claimed past-the-match overwrite. -/
theorem claim_C3_counterexample :
    patch_ramdisk_image (SPLIT_PLAT_CIL ++ s2l "ABC")
        ≠ c3_claimed_patch (SPLIT_PLAT_CIL ++ s2l "ABC")
    ∧ (patch_ramdisk_image (SPLIT_PLAT_CIL ++ s2l "ABC")).drop 37
        = (SPLIT_PLAT_CIL ++ s2l "ABC").drop 37
    ∧ patch_ramdisk_image (SPLIT_PLAT_CIL ++ s2l "ABC")
        ≠ SPLIT_PLAT_CIL ++ s2l "ABC" := by
  decide

/-- C3 (amended): patch_ramdisk linearly scans the mapped /init image for
the first exact byte match of the 37-byte policy pathname and overwrites
in place the 3 bytes ENDING at the end of the match (offsets i+34..i+36,
the ".cil" tail minus the dot) with the marker "xxx", leaving the length
unchanged and every byte before offset i+34 and from offset i+37 on
untouched; with no match the image is left entirely unmodified. -/
theorem claim_C3_patch_ramdisk (img : List Char) :
    (firstMatch SPLIT_PLAT_CIL img = none → patch_ramdisk_image img = img)
    ∧ (∀ i, firstMatch SPLIT_PLAT_CIL img = some i →
        (patch_ramdisk_image img).length = img.length
        ∧ (patch_ramdisk_image img).take (i + 34) = img.take (i + 34)
        ∧ ((patch_ramdisk_image img).drop (i + 34)).take 3 = s2l "xxx"
        ∧ (patch_ramdisk_image img).drop (i + 37) = img.drop (i + 37)) := by
  constructor
  · intro h
    simp [patch_ramdisk_image, h]
  · intro i h
    obtain ⟨hm, hi⟩ := firstMatch_some h
    have hfit : i + 37 ≤ img.length := by
      have hb := matchAt_le (by decide) hm
      have hp : SPLIT_PLAT_CIL.length = 37 := rfl
      rw [hp] at hb
      exact hb
    have hx : (s2l "xxx").length = 3 := rfl
    have heq : patch_ramdisk_image img = writeAt (i + 34) (s2l "xxx") img := by
      simp only [patch_ramdisk_image, h]
      rfl
    rw [heq]
    refine ⟨?_, ?_, ?_, ?_⟩
    · exact length_writeAt (by rw [hx]; omega)
    · exact take_writeAt (by omega)
    · have hseg := @seg_writeAt (i + 34) (s2l "xxx") img (by omega)
      rw [hx] at hseg
      exact hseg
    · have hdrop := @drop_writeAt (i + 34) (s2l "xxx") img (by rw [hx]; omega)
      rw [hx] at hdrop
      have h37 : i + 34 + 3 = i + 37 := by omega
      rw [h37] at hdrop
      exact hdrop

/-- Witness for claim_C3_patch_ramdisk: the pathname sits at offset 2 of a
concrete image. -/
theorem claim_C3_patch_ramdisk_witness :
    (patch_ramdisk_image (s2l "AB" ++ SPLIT_PLAT_CIL ++ s2l "Z")).length
        = (s2l "AB" ++ SPLIT_PLAT_CIL ++ s2l "Z").length
    ∧ (patch_ramdisk_image (s2l "AB" ++ SPLIT_PLAT_CIL ++ s2l "Z")).take (2 + 34)
        = (s2l "AB" ++ SPLIT_PLAT_CIL ++ s2l "Z").take (2 + 34)
    ∧ ((patch_ramdisk_image (s2l "AB" ++ SPLIT_PLAT_CIL ++ s2l "Z")).drop
          (2 + 34)).take 3 = s2l "xxx"
    ∧ (patch_ramdisk_image (s2l "AB" ++ SPLIT_PLAT_CIL ++ s2l "Z")).drop (2 + 37)
        = (s2l "AB" ++ SPLIT_PLAT_CIL ++ s2l "Z").drop (2 + 37) :=
  (claim_C3_patch_ramdisk (s2l "AB" ++ SPLIT_PLAT_CIL ++ s2l "Z")).2 2
    (by decide)

/-! ### Claim C7 -/

/-- C7: invoking patch_socket_name twice on the same extracted file (the
placeholder occurring in the original file, both replacement buffers of
exactly sizeof(SOCKET_NAME) bytes) scans only on the first call (the
static SOCKET_OFF is negative on entry, non-negative afterwards), reuses
the cached offset on the second call, and both in-place writes leave the
file length unchanged. -/
theorem claim_C7_socket_patch_twice (sock file r1 r2 : List Char) (i : Nat)
    (hm : firstMatch (sock ++ [nul]) file = some i)
    (hr1 : r1.length = sock.length + 1) (hr2 : r2.length = sock.length + 1) :
    (patch_socket_name sock (-1) file r1).scanned = true
    ∧ (patch_socket_name sock (-1) file r1).off = (i : Int)
    ∧ (patch_socket_name sock (-1) file r1).out = some (writeAt i r1 file)
    ∧ (writeAt i r1 file).length = file.length
    ∧ (patch_socket_name sock (i : Int) (writeAt i r1 file) r2).scanned = false
    ∧ (patch_socket_name sock (i : Int) (writeAt i r1 file) r2).off = (i : Int)
    ∧ (patch_socket_name sock (i : Int) (writeAt i r1 file) r2).out
        = some (writeAt i r2 (writeAt i r1 file))
    ∧ (writeAt i r2 (writeAt i r1 file)).length = file.length := by
  obtain ⟨hmm, hlt⟩ := firstMatch_some hm
  have hfit : i + (sock.length + 1) ≤ file.length := by
    have hb := matchAt_le (by simp) hmm
    rw [List.length_append] at hb
    simpa using hb
  have hlen1 : (writeAt i r1 file).length = file.length :=
    length_writeAt (by rw [hr1]; omega)
  have hlen2 : (writeAt i r2 (writeAt i r1 file)).length = file.length := by
    rw [length_writeAt (by rw [hr2, hlen1]; omega), hlen1]
  have hneg : ((-1 : Int) < 0) := by decide
  have hpos : ¬ ((i : Int) < 0) := by omega
  have e1 : patch_socket_name sock (-1) file r1
      = ⟨true, (i : Int), some (writeAt i r1 file)⟩ := by
    simp [patch_socket_name, hm, hneg, hpos]
  have e2 : patch_socket_name sock (i : Int) (writeAt i r1 file) r2
      = ⟨false, (i : Int), some (writeAt i r2 (writeAt i r1 file))⟩ := by
    simp [patch_socket_name, hpos]
  rw [e1, e2]
  exact ⟨rfl, rfl, rfl, hlen1, rfl, rfl, rfl, hlen2⟩

/-- Witness for claim_C7_socket_patch_twice at a concrete file and
placeholder. -/
theorem claim_C7_socket_patch_twice_witness :
    (patch_socket_name (s2l "SOCK") (-1)
        (s2l "XX" ++ (s2l "SOCK" ++ [nul]) ++ s2l "YY")
        (s2l "abcd" ++ [nul])).scanned = true
    ∧ (patch_socket_name (s2l "SOCK") (-1)
        (s2l "XX" ++ (s2l "SOCK" ++ [nul]) ++ s2l "YY")
        (s2l "abcd" ++ [nul])).off = ((2 : Nat) : Int)
    ∧ (patch_socket_name (s2l "SOCK") (-1)
        (s2l "XX" ++ (s2l "SOCK" ++ [nul]) ++ s2l "YY")
        (s2l "abcd" ++ [nul])).out
        = some (writeAt 2 (s2l "abcd" ++ [nul])
            (s2l "XX" ++ (s2l "SOCK" ++ [nul]) ++ s2l "YY"))
    ∧ (writeAt 2 (s2l "abcd" ++ [nul])
        (s2l "XX" ++ (s2l "SOCK" ++ [nul]) ++ s2l "YY")).length
        = (s2l "XX" ++ (s2l "SOCK" ++ [nul]) ++ s2l "YY").length
    ∧ (patch_socket_name (s2l "SOCK") ((2 : Nat) : Int)
        (writeAt 2 (s2l "abcd" ++ [nul])
          (s2l "XX" ++ (s2l "SOCK" ++ [nul]) ++ s2l "YY"))
        (s2l "efgh" ++ [nul])).scanned = false
    ∧ (patch_socket_name (s2l "SOCK") ((2 : Nat) : Int)
        (writeAt 2 (s2l "abcd" ++ [nul])
          (s2l "XX" ++ (s2l "SOCK" ++ [nul]) ++ s2l "YY"))
        (s2l "efgh" ++ [nul])).off = ((2 : Nat) : Int)
    ∧ (patch_socket_name (s2l "SOCK") ((2 : Nat) : Int)
        (writeAt 2 (s2l "abcd" ++ [nul])
          (s2l "XX" ++ (s2l "SOCK" ++ [nul]) ++ s2l "YY"))
        (s2l "efgh" ++ [nul])).out
        = some (writeAt 2 (s2l "efgh" ++ [nul])
            (writeAt 2 (s2l "abcd" ++ [nul])
              (s2l "XX" ++ (s2l "SOCK" ++ [nul]) ++ s2l "YY")))
    ∧ (writeAt 2 (s2l "efgh" ++ [nul])
        (writeAt 2 (s2l "abcd" ++ [nul])
          (s2l "XX" ++ (s2l "SOCK" ++ [nul]) ++ s2l "YY"))).length
        = (s2l "XX" ++ (s2l "SOCK" ++ [nul]) ++ s2l "YY").length :=
  claim_C7_socket_patch_twice (s2l "SOCK")
    (s2l "XX" ++ (s2l "SOCK" ++ [nul]) ++ s2l "YY")
    (s2l "abcd" ++ [nul]) (s2l "efgh" ++ [nul]) 2
    (by decide) (by decide) (by decide)

end Magiskinit
